import Mathlib

/-!
Verification of the join-and-disambiguate resolver of `dev_anon.py`.

The embedding models the pandas pipeline of `mock_mapping_dataframe`
(lines 200-208 of `src/dev_anon.py`):

    joined = (plato.merge(mag, on=["company_code", "order_number", "order_line"], how="left")
                    .dropna(subset=["mg_product_name"]))
    counts = (joined.groupby(["company_code","sales_item_id","mg_product_name"], as_index=False)
                    .size().rename(columns=...))
    picked = (counts.sort_values(["company_code","sales_item_id","cnt"], ascending=[True,True,False])
                    .groupby(["company_code","sales_item_id"], as_index=False)
                    .first()[["company_code","sales_item_id","mg_product_name"]])
    return picked.sort_values(["company_code","sales_item_id"]).reset_index(drop=True)

DataFrame rows are lists of structures whose cells are `Option`-valued where
pandas allows missing values.  The pandas facts the embedding commits to:
* `merge` on key columns matches equal keys, including null keys matching
  null keys (pandas hashes NaN/None as an ordinary key value);
  `how="left"` keeps an unmatched left row once, with a null label;
* `dropna(subset=[c])` keeps the rows whose cell `c` is present;
* `groupby(keys, as_index=False)` with the default `sort=True, dropna=True`
  drops rows having a null in any key column and emits one row per distinct
  key tuple, in ascending lexicographic key order; `.size()` is the number
  of member rows; `.first()` is the first member row in frame order;
* `sort_values(cols)` with several columns is a stable sort (numpy lexsort),
  modelled by `List.insertionSort`, which is stable for a total preorder.

`fetch_company_codes` (lines 60-89), `get_credentials` (lines 48-57) and the
live branch of `main` (lines 211-225) are embedded with the remote-query
results abstracted as parameters and Python exceptions as `Except`.
-/

namespace DevAnon

/-- A row of the `plato` frame (an OrderLineRecord): columns
`company_code`, `order_number`, `order_line`, `sales_item_id`.
Cells are optional, modelling missing values in a pandas frame. -/
structure PlatoRow where
  company_code : Option String
  order_number : Option String
  order_line : Option Int
  sales_item_id : Option String
deriving DecidableEq

/-- A row of the `mag` frame (a LabeledRecord): the same composite key
columns plus the free-form `mg_product_name` label. -/
structure MagRow where
  company_code : Option String
  order_number : Option String
  order_line : Option Int
  mg_product_name : Option String
deriving DecidableEq

/-- A row of the `joined` frame after column selection: the merge keeps
`company_code` and `sales_item_id` from the left side and takes
`mg_product_name` from the right side (null when the left row had no match). -/
structure JoinedRow where
  company_code : Option String
  sales_item_id : Option String
  mg_product_name : Option String
deriving DecidableEq

/-- A row of the `counts` frame: one row per distinct
(company_code, sales_item_id, mg_product_name) group with its size `cnt`.
Group keys are non-null because `groupby` drops null-keyed rows. -/
structure CountRow where
  company_code : String
  sales_item_id : String
  mg_product_name : String
  cnt : Nat
deriving DecidableEq

/-- A row of the resolver output (a ResolvedMapping). -/
structure OutRow where
  company_code : String
  sales_item_id : String
  mg_product_name : String
deriving DecidableEq

/-- Strict code-point lexicographic order on character lists, the order in
which Python (and hence pandas) compares strings.  Defined structurally so
that it evaluates by kernel reduction (the core `String` order is defined by
well-founded recursion on iterators and does not). -/
def charListLtB : List Char → List Char → Bool
  | _, [] => false
  | [], _ :: _ => true
  | a :: s, b :: t => decide (a < b) || (decide (a = b) && charListLtB s t)

/-- Strict lexicographic order on strings by Unicode code point. -/
def strLtP (a b : String) : Prop :=
  charListLtB a.data b.data = true

/-- Non-strict lexicographic order on strings. -/
def strLeP (a b : String) : Prop :=
  strLtP a b ∨ a = b

instance strLtP.decRel : DecidableRel strLtP := fun a b => by
  unfold strLtP; exact inferInstance

instance strLeP.decRel : DecidableRel strLeP := fun a b => by
  unfold strLeP; exact inferInstance

theorem charListLtB_irrefl : ∀ s : List Char, charListLtB s s = false
  | [] => rfl
  | a :: s => by
    simp only [charListLtB, charListLtB_irrefl s, Bool.and_false, Bool.or_false,
      decide_eq_false_iff_not]
    exact lt_irrefl a

theorem charListLtB_trans : ∀ s t u : List Char,
    charListLtB s t = true → charListLtB t u = true → charListLtB s u = true := by
  intro s
  induction s with
  | nil =>
    intro t u h1 h2
    cases u with
    | nil => cases t <;> simp [charListLtB] at h1 h2
    | cons c u => simp [charListLtB]
  | cons a s ih =>
    intro t u h1 h2
    cases t with
    | nil => simp [charListLtB] at h1
    | cons b t =>
      cases u with
      | nil => simp [charListLtB] at h2
      | cons c u =>
        simp only [charListLtB, Bool.or_eq_true, Bool.and_eq_true, decide_eq_true_eq] at h1 h2 ⊢
        rcases h1 with h1 | ⟨e1, h1⟩ <;> rcases h2 with h2 | ⟨e2, h2⟩
        · exact Or.inl (h1.trans h2)
        · exact Or.inl (e2 ▸ h1)
        · exact Or.inl (e1 ▸ h2)
        · exact Or.inr ⟨e1.trans e2, ih t u h1 h2⟩

theorem charListLtB_trichotomy : ∀ s t : List Char,
    charListLtB s t = true ∨ s = t ∨ charListLtB t s = true := by
  intro s
  induction s with
  | nil =>
    intro t
    cases t with
    | nil => exact Or.inr (Or.inl rfl)
    | cons b t => simp [charListLtB]
  | cons a s ih =>
    intro t
    cases t with
    | nil => simp [charListLtB]
    | cons b t =>
      simp only [charListLtB, Bool.or_eq_true, Bool.and_eq_true, decide_eq_true_eq,
        List.cons.injEq]
      rcases lt_trichotomy a b with h | h | h
      · exact Or.inl (Or.inl h)
      · rcases ih t with h2 | h2 | h2
        · exact Or.inl (Or.inr ⟨h, h2⟩)
        · exact Or.inr (Or.inl ⟨h, h2⟩)
        · exact Or.inr (Or.inr (Or.inr ⟨h.symm, h2⟩))
      · exact Or.inr (Or.inr (Or.inl h))

theorem strLtP_trans {a b c : String} (h1 : strLtP a b) (h2 : strLtP b c) : strLtP a c :=
  charListLtB_trans _ _ _ h1 h2

theorem strLtP_irrefl (a : String) : ¬ strLtP a a := by
  unfold strLtP
  simp [charListLtB_irrefl]

theorem strLtP_asymm {a b : String} (h : strLtP a b) : ¬ strLtP b a := fun h2 =>
  strLtP_irrefl a (strLtP_trans h h2)

theorem strLtP_trichotomy (a b : String) : strLtP a b ∨ a = b ∨ strLtP b a := by
  rcases charListLtB_trichotomy a.data b.data with h | h | h
  · exact Or.inl h
  · refine Or.inr (Or.inl ?_)
    cases a; cases b
    simp only at h
    exact congrArg String.mk h
  · exact Or.inr (Or.inr h)

theorem strLeP_total (a b : String) : strLeP a b ∨ strLeP b a := by
  rcases strLtP_trichotomy a b with h | h | h
  · exact Or.inl (Or.inl h)
  · exact Or.inl (Or.inr h)
  · exact Or.inr (Or.inl h)

theorem strLeP_trans {a b c : String} (h1 : strLeP a b) (h2 : strLeP b c) : strLeP a c := by
  rcases h1 with h1 | rfl <;> rcases h2 with h2 | rfl
  · exact Or.inl (strLtP_trans h1 h2)
  · exact Or.inl h1
  · exact Or.inl h2
  · exact Or.inr rfl

theorem strLtP_of_leP_ne {a b : String} (h : strLeP a b) (hne : a ≠ b) : strLtP a b := by
  rcases h with h | rfl
  · exact h
  · exact absurd rfl hne

instance strLeP.isTotal : IsTotal String strLeP := ⟨strLeP_total⟩

instance strLeP.isTrans : IsTrans String strLeP := ⟨fun _ _ _ => strLeP_trans⟩

/-- Lexicographic composition of a string-column comparison with a tie
relation on the remaining columns: strictly smaller on the column `f`, or
equal on `f` and related by `r`.  All the multi-column pandas orderings
below are instances of this shape. -/
def lexLe {γ : Type} (f : γ → String) (r : γ → γ → Prop) (a b : γ) : Prop :=
  strLtP (f a) (f b) ∨ (f a = f b ∧ r a b)

theorem lexLe_total {γ : Type} (f : γ → String) (r : γ → γ → Prop)
    (hr : ∀ a b, r a b ∨ r b a) (a b : γ) :
    lexLe f r a b ∨ lexLe f r b a := by
  rcases strLtP_trichotomy (f a) (f b) with h | h | h
  · exact Or.inl (Or.inl h)
  · rcases hr a b with hab | hba
    · exact Or.inl (Or.inr ⟨h, hab⟩)
    · exact Or.inr (Or.inr ⟨h.symm, hba⟩)
  · exact Or.inr (Or.inl h)

theorem lexLe_trans {γ : Type} (f : γ → String) (r : γ → γ → Prop)
    (hr : ∀ a b c, r a b → r b c → r a c) {a b c : γ} :
    lexLe f r a b → lexLe f r b c → lexLe f r a c := by
  intro hab hbc
  rcases hab with h1 | ⟨e1, h1⟩ <;> rcases hbc with h2 | ⟨e2, h2⟩
  · exact Or.inl (strLtP_trans h1 h2)
  · exact Or.inl (e2 ▸ h1)
  · exact Or.inl (e1 ▸ h2)
  · exact Or.inr ⟨e1.trans e2, hr _ _ _ h1 h2⟩

/-- Ascending order on (company_code, sales_item_id, mg_product_name) key
triples, as used by `groupby(..., sort=True)` on the three group columns. -/
def tripLe (a b : String × String × String) : Prop :=
  lexLe (fun t => t.1) (lexLe (fun t => t.2.1) (fun s t => strLeP s.2.2 t.2.2)) a b

/-- Strict version of `tripLe`. -/
def tripLt (a b : String × String × String) : Prop :=
  lexLe (fun t => t.1) (lexLe (fun t => t.2.1) (fun s t => strLtP s.2.2 t.2.2)) a b

/-- Ascending order on (company_code, sales_item_id) pairs. -/
def pairLe (a b : String × String) : Prop :=
  lexLe (fun x => x.1) (fun s t => strLeP s.2 t.2) a b

/-- The `sort_values(["company_code","sales_item_id","cnt"],
ascending=[True,True,False])` ordering on `counts` rows: key pair ascending,
then count descending.  The label column takes no part in the comparison:
rows tied on all three sort columns keep their frame order (stable sort). -/
def pickLe (a b : CountRow) : Prop :=
  lexLe (fun c => c.company_code)
    (lexLe (fun c => c.sales_item_id) (fun s t => t.cnt ≤ s.cnt)) a b

/-- The final `sort_values(["company_code","sales_item_id"])` ordering on
output rows. -/
def outLe (a b : OutRow) : Prop :=
  lexLe (fun o => o.company_code) (fun s t => strLeP s.sales_item_id t.sales_item_id) a b

instance tripLe.decRel : DecidableRel tripLe := fun a b => by
  unfold tripLe lexLe; exact inferInstance

instance tripLt.decRel : DecidableRel tripLt := fun a b => by
  unfold tripLt lexLe; exact inferInstance

instance pairLe.decRel : DecidableRel pairLe := fun a b => by
  unfold pairLe lexLe; exact inferInstance

instance pickLe.decRel : DecidableRel pickLe := fun a b => by
  unfold pickLe lexLe; exact inferInstance

instance outLe.decRel : DecidableRel outLe := fun a b => by
  unfold outLe lexLe; exact inferInstance

instance tripLe.isTotal : IsTotal (String × String × String) tripLe := by
  constructor; intro a b; unfold tripLe
  apply lexLe_total; intro x y
  apply lexLe_total; intro u v
  exact strLeP_total u.2.2 v.2.2

instance tripLe.isTrans : IsTrans (String × String × String) tripLe := by
  constructor; intro a b c h1 h2; unfold tripLe at h1 h2 ⊢
  refine lexLe_trans _ _ ?_ h1 h2
  intro x y z g1 g2
  refine lexLe_trans _ _ ?_ g1 g2
  intro u v w f1 f2
  exact strLeP_trans f1 f2

instance pairLe.isTotal : IsTotal (String × String) pairLe := by
  constructor; intro a b; unfold pairLe
  apply lexLe_total; intro u v
  exact strLeP_total u.2 v.2

instance pairLe.isTrans : IsTrans (String × String) pairLe := by
  constructor; intro a b c h1 h2; unfold pairLe at h1 h2 ⊢
  refine lexLe_trans _ _ ?_ h1 h2
  intro u v w f1 f2
  exact strLeP_trans f1 f2

instance outLe.isTotal : IsTotal OutRow outLe := by
  constructor; intro a b; unfold outLe
  apply lexLe_total; intro u v
  exact strLeP_total u.sales_item_id v.sales_item_id

instance outLe.isTrans : IsTrans OutRow outLe := by
  constructor; intro a b c h1 h2; unfold outLe at h1 h2 ⊢
  refine lexLe_trans _ _ ?_ h1 h2
  intro u v w f1 f2
  exact strLeP_trans f1 f2

theorem pickLe_total (a b : CountRow) : pickLe a b ∨ pickLe b a := by
  unfold pickLe
  apply lexLe_total; intro x y
  apply lexLe_total; intro u v
  exact Nat.le_total v.cnt u.cnt

theorem pickLe_trans {a b c : CountRow} : pickLe a b → pickLe b c → pickLe a c := by
  intro h1 h2; unfold pickLe at h1 h2 ⊢
  refine lexLe_trans _ _ ?_ h1 h2
  intro x y z g1 g2
  refine lexLe_trans _ _ ?_ g1 g2
  intro u v w f1 f2
  exact f2.trans f1

/-- The merge condition of line 201: row equality on the three key columns.
Following pandas `merge`, a null key cell matches a null key cell. -/
def keyMatch (pr : PlatoRow) (mr : MagRow) : Bool :=
  decide (pr.company_code = mr.company_code ∧ pr.order_number = mr.order_number ∧
    pr.order_line = mr.order_line)

/-- The rows a single left (`plato`) row produces in the left merge of
line 201: one combined row per matching `mag` row in frame order, or a
single row with a null label when nothing matches (`how="left"`). -/
def lookup_rows (pr : PlatoRow) (m : List MagRow) : List JoinedRow :=
  match m.filter (fun mr => keyMatch pr mr) with
  | [] => [⟨pr.company_code, pr.sales_item_id, none⟩]
  | ms => ms.map fun mr => ⟨pr.company_code, pr.sales_item_id, mr.mg_product_name⟩

/-- The left merge of line 201, row by row of the left frame. -/
def merge_left : List PlatoRow → List MagRow → List JoinedRow
  | [], _ => []
  | pr :: p, m => lookup_rows pr m ++ merge_left p m

/-- The `.dropna(subset=["mg_product_name"])` of line 202. -/
def dropna_label (l : List JoinedRow) : List JoinedRow :=
  l.filter fun j => j.mg_product_name.isSome

/-- The joined-and-filtered frame of lines 201-202 (`joined` in the source). -/
def survivors (p : List PlatoRow) (m : List MagRow) : List JoinedRow :=
  dropna_label (merge_left p m)

/-- The (company_code, sales_item_id, mg_product_name) group key of a joined
row, or `none` when some key cell is null (`groupby` then drops the row). -/
def keyTriple (j : JoinedRow) : Option (String × String × String) :=
  match j.company_code, j.sales_item_id, j.mg_product_name with
  | some c, some i, some lab => some (c, i, lab)
  | _, _, _ => none

/-- The multiset of surviving joined occurrences, as group-key triples. -/
def triples (p : List PlatoRow) (m : List MagRow) : List (String × String × String) :=
  (survivors p m).filterMap keyTriple

/-- The `groupby(["company_code","sales_item_id","mg_product_name"],
as_index=False).size()` of lines 203-204 applied to a triple multiset:
one row per distinct triple, in ascending key order, with its multiplicity. -/
def countsOf (ts : List (String × String × String)) : List CountRow :=
  (List.insertionSort tripLe ts.dedup).map fun k =>
    ⟨k.1, k.2.1, k.2.2, ts.countP fun u => decide (u = k)⟩

/-- The `counts` frame of lines 203-204. -/
def counts (p : List PlatoRow) (m : List MagRow) : List CountRow :=
  countsOf (triples p m)

/-- The (company_code, sales_item_id) key of a `counts` row. -/
def pairKey (c : CountRow) : String × String :=
  (c.company_code, c.sales_item_id)

/-- The `groupby(["company_code","sales_item_id"], as_index=False).first()`
of lines 206-207: the distinct key pairs in ascending order, and for each the
first member row of the frame. -/
def groupFirst (l : List CountRow) : List CountRow :=
  (List.insertionSort pairLe (l.map pairKey).dedup).filterMap fun k =>
    l.find? fun c => decide (pairKey c = k)

/-- Column selection dropping `cnt` (line 207). -/
def toOut (c : CountRow) : OutRow :=
  ⟨c.company_code, c.sales_item_id, c.mg_product_name⟩

/-- The `picked` frame of lines 205-207: the stable sort by key pair
ascending and count descending, then the first row of each key-pair group,
then the three output columns. -/
def picked (p : List PlatoRow) (m : List MagRow) : List OutRow :=
  (groupFirst (List.insertionSort pickLe (counts p m))).map toOut

/-- The resolver output (line 208): `picked` sorted ascending by
(company_code, sales_item_id).  This is the pure join-and-disambiguate
resolver of lines 200-208 of `mock_mapping_dataframe`, as a function of the
two input frames. -/
def resolve_mapping (p : List PlatoRow) (m : List MagRow) : List OutRow :=
  List.insertionSort outLe (picked p m)

/-- The number of surviving joined occurrences pairing (cc, it) with `lab`. -/
def labelCount (p : List PlatoRow) (m : List MagRow) (cc it lab : String) : Nat :=
  (triples p m).countP fun u => decide (u = (cc, it, lab))

/-- The (company_code, sales_item_id) pair of a group-key triple. -/
def pairOfTriple (t : String × String × String) : String × String :=
  (t.1, t.2.1)

/-! ### The live path: `fetch_company_codes`, `get_credentials`, `main` -/

/-- User credentials as obtained from `pydata_google_auth.get_user_credentials`
(line 57): an opaque token carrying the requested scopes. -/
structure Credentials where
  scopes : List String
deriving DecidableEq

/-- Embedding of `get_credentials` (lines 48-57).  `use_mock` is the module
switch `USE_MOCK`; `pydata_available` tells whether the optional import of
`pydata_google_auth` succeeded (line 12), which the source tests against
`None` (line 51).  Python's `raise RuntimeError` is the `Except.error` case. -/
def get_credentials (use_mock : Bool) (pydata_available : Bool) :
    Except String (Option Credentials) :=
  if use_mock then Except.ok none
  else if pydata_available = false then
    Except.error ("pydata_google_auth not installed; run: pip install pydata-google-auth")
  else
    Except.ok (some ⟨[("https://www.googleapis.com/auth/bigquery"),
      ("https://www.googleapis.com/auth/cloud-platform")]⟩)

/-- Embedding of `fetch_company_codes` (lines 60-89).  The remote query is
abstracted by its result: `lookup` is the `CompanyCode` column of the frame
returned by `read_gbq`, as strings.  The source then forms
`sorted(set(...))` (line 86) and raises when the result is empty
(lines 87-88). -/
def fetch_company_codes (lookup : List String) : Except String (List String) :=
  if List.insertionSort strLeP lookup.dedup = [] then
    Except.error ("No CompanyCodes resolved from supported entities.")
  else Except.ok (List.insertionSort strLeP lookup.dedup)

/-- Embedding of the live (non-mock) branch of `main` (lines 216-223):
credentials, then company codes, then the mapping query, each failure
aborting the run.  `run_query` abstracts `run_mapping_query`, i.e. the
remote execution of the resolution SQL for the given codes. -/
def main_live (pydata_available : Bool) (lookup : List String)
    (run_query : List String → List OutRow) : Except String (List OutRow) :=
  match get_credentials false pydata_available with
  | Except.error e => Except.error e
  | Except.ok _ =>
    match fetch_company_codes lookup with
    | Except.error e => Except.error e
    | Except.ok codes => Except.ok (run_query codes)

/-- The content of the Excel file written by the live run of `main`
(line 223): `df.to_excel` runs only when no earlier exception aborted the
run, so nothing is written on a fatal condition. -/
def main_written (pydata_available : Bool) (lookup : List String)
    (run_query : List String → List OutRow) : Option (List OutRow) :=
  match main_live pydata_available lookup run_query with
  | Except.ok df => some df
  | Except.error _ => none

/-! ### Structural lemmas about the join -/

theorem merge_left_cons (pr : PlatoRow) (p : List PlatoRow) (m : List MagRow) :
    merge_left (pr :: p) m = lookup_rows pr m ++ merge_left p m := rfl

theorem mem_lookup_rows {pr : PlatoRow} {m : List MagRow} {j : JoinedRow}
    (h : j ∈ lookup_rows pr m) :
    j.company_code = pr.company_code ∧ j.sales_item_id = pr.sales_item_id := by
  rcases hm : m.filter (fun mr => keyMatch pr mr) with _ | ⟨mr, ms⟩
  · have hl : lookup_rows pr m = [⟨pr.company_code, pr.sales_item_id, none⟩] := by
      unfold lookup_rows
      rw [hm]
    rw [hl] at h
    simp only [List.mem_singleton] at h
    subst h
    exact ⟨rfl, rfl⟩
  · have hl : lookup_rows pr m =
        (mr :: ms).map fun mr2 => ⟨pr.company_code, pr.sales_item_id, mr2.mg_product_name⟩ := by
      unfold lookup_rows
      rw [hm]
    rw [hl] at h
    rcases List.mem_map.mp h with ⟨mr2, _, hj⟩
    subst hj
    exact ⟨rfl, rfl⟩

theorem mem_merge_left {p : List PlatoRow} {m : List MagRow} {j : JoinedRow}
    (h : j ∈ merge_left p m) :
    ∃ pr ∈ p, j.company_code = pr.company_code ∧ j.sales_item_id = pr.sales_item_id := by
  induction p with
  | nil => cases h
  | cons pr p ih =>
    rw [merge_left_cons] at h
    rcases List.mem_append.mp h with h1 | h2
    · exact ⟨pr, List.mem_cons_self _ _, mem_lookup_rows h1⟩
    · rcases ih h2 with ⟨pr2, hmem, hfields⟩
      exact ⟨pr2, List.mem_cons_of_mem _ hmem, hfields⟩

theorem keyTriple_eq_some {j : JoinedRow} {t : String × String × String}
    (h : keyTriple j = some t) :
    j.company_code = some t.1 ∧ j.sales_item_id = some t.2.1 ∧
      j.mg_product_name = some t.2.2 := by
  obtain ⟨jc, ji, jl⟩ := j
  rcases jc with _ | c <;> rcases ji with _ | i <;> rcases jl with _ | lab <;>
    simp only [keyTriple, reduceCtorEq, Option.some.injEq] at h
  subst h
  exact ⟨rfl, rfl, rfl⟩

theorem survivors_cons (pr : PlatoRow) (p : List PlatoRow) (m : List MagRow) :
    survivors (pr :: p) m = dropna_label (lookup_rows pr m) ++ survivors p m := by
  unfold survivors dropna_label
  rw [merge_left_cons]
  exact List.filter_append _ _

theorem triples_cons (pr : PlatoRow) (p : List PlatoRow) (m : List MagRow) :
    triples (pr :: p) m =
      (dropna_label (lookup_rows pr m)).filterMap keyTriple ++ triples p m := by
  unfold triples
  rw [survivors_cons]
  exact List.filterMap_append _ _ _

theorem resolve_mapping_congr_triples {p p2 : List PlatoRow} {m m2 : List MagRow}
    (h : triples p m = triples p2 m2) : resolve_mapping p m = resolve_mapping p2 m2 := by
  unfold resolve_mapping picked counts
  rw [h]

theorem resolve_mapping_eq_nil_of_triples {p : List PlatoRow} {m : List MagRow}
    (h : triples p m = []) : resolve_mapping p m = [] := by
  unfold resolve_mapping picked counts
  rw [h]
  rfl

theorem survivors_eq_nil {p : List PlatoRow} {m : List MagRow}
    (h : ∀ pr ∈ p, ∀ mr ∈ m, keyMatch pr mr = false) : survivors p m = [] := by
  induction p with
  | nil => rfl
  | cons pr p ih =>
    rw [survivors_cons]
    have hfilter : m.filter (fun mr => keyMatch pr mr) = [] :=
      List.filter_eq_nil_iff.mpr fun mr hmr => by
        simp [h pr (List.mem_cons_self _ _) mr hmr]
    have hlook : lookup_rows pr m = [⟨pr.company_code, pr.sales_item_id, none⟩] := by
      unfold lookup_rows
      rw [hfilter]
    rw [hlook, ih fun q hq => h q (List.mem_cons_of_mem _ hq)]
    rfl

/-! ### Lemmas about the `counts` frame -/

/-- The group-key triple a `counts` row stands for. -/
def countTripleOf (c : CountRow) : String × String × String :=
  (c.company_code, c.sales_item_id, c.mg_product_name)

theorem mem_countsOf {ts : List (String × String × String)} {c : CountRow}
    (h : c ∈ countsOf ts) :
    countTripleOf c ∈ ts ∧ c.cnt = ts.countP fun u => decide (u = countTripleOf c) := by
  unfold countsOf at h
  rcases List.mem_map.mp h with ⟨k, hk, hc⟩
  have hk2 : k ∈ ts := List.mem_dedup.mp ((List.mem_insertionSort tripLe).mp hk)
  subst hc
  exact ⟨hk2, rfl⟩

theorem countsOf_mem_of_mem {ts : List (String × String × String)}
    {t : String × String × String} (h : t ∈ ts) :
    (⟨t.1, t.2.1, t.2.2, ts.countP fun u => decide (u = t)⟩ : CountRow) ∈ countsOf ts := by
  unfold countsOf
  refine List.mem_map_of_mem _ ?_
  exact (List.mem_insertionSort tripLe).mpr (List.mem_dedup.mpr h)

theorem tripLe_ne_lt {a b : String × String × String} (hle : tripLe a b) (hne : a ≠ b) :
    tripLt a b := by
  obtain ⟨a1, a2, a3⟩ := a
  obtain ⟨b1, b2, b3⟩ := b
  unfold tripLe lexLe at hle
  unfold tripLt lexLe
  simp only at hle ⊢
  rcases hle with h | ⟨e1, h | ⟨e2, h⟩⟩
  · exact Or.inl h
  · exact Or.inr ⟨e1, Or.inl h⟩
  · refine Or.inr ⟨e1, Or.inr ⟨e2, strLtP_of_leP_ne h ?_⟩⟩
    intro e3
    exact hne (by rw [e1, e2, e3])

theorem countsOf_pairwise (ts : List (String × String × String)) :
    (countsOf ts).Pairwise fun a b => tripLt (countTripleOf a) (countTripleOf b) := by
  unfold countsOf
  rw [List.pairwise_map]
  have hsorted : (List.insertionSort tripLe ts.dedup).Pairwise tripLe :=
    List.sorted_insertionSort tripLe ts.dedup
  have hnodup : (List.insertionSort tripLe ts.dedup).Nodup :=
    (List.perm_insertionSort tripLe ts.dedup).nodup_iff.mpr (List.nodup_dedup ts)
  exact (hsorted.and hnodup).imp fun hab => tripLe_ne_lt hab.1 hab.2

/-! ### Stability of the `sort_values` step

`sort_values` compares `counts` rows only on (company_code, sales_item_id,
cnt); rows equivalent under `pickLe` keep their frame order, which in
`counts` is strictly ascending on the full key triple.  `pickW` records what
survives sorting: a strict `pickLe` inequality, or a `pickLe` tie whose
frame order was ascending on the key triple. -/

def pickW (a b : CountRow) : Prop :=
  (pickLe a b ∧ ¬ pickLe b a) ∨
    (pickLe a b ∧ pickLe b a ∧ tripLt (countTripleOf a) (countTripleOf b))

theorem pickW_pickLe {a b : CountRow} (h : pickW a b) : pickLe a b := by
  rcases h with ⟨h1, _⟩ | ⟨h1, _, _⟩ <;> exact h1

theorem pickW_orderedInsert (a : CountRow) (l : List CountRow)
    (hl : l.Pairwise pickW)
    (hS : ∀ b ∈ l, tripLt (countTripleOf a) (countTripleOf b)) :
    (List.orderedInsert pickLe a l).Pairwise pickW := by
  induction l with
  | nil => simp [List.orderedInsert]
  | cons b t ih =>
    rcases List.pairwise_cons.mp hl with ⟨hb, ht⟩
    rw [List.orderedInsert]
    split_ifs with hab
    · refine List.pairwise_cons.mpr ⟨?_, hl⟩
      intro c hc
      rcases List.mem_cons.mp hc with rfl | hct
      · by_cases hba : pickLe c a
        · exact Or.inr ⟨hab, hba, hS c (List.mem_cons_self _ _)⟩
        · exact Or.inl ⟨hab, hba⟩
      · have hac : pickLe a c := pickLe_trans hab (pickW_pickLe (hb c hct))
        by_cases hca : pickLe c a
        · exact Or.inr ⟨hac, hca, hS c (List.mem_cons_of_mem _ hct)⟩
        · exact Or.inl ⟨hac, hca⟩
    · refine List.pairwise_cons.mpr ⟨?_, ih ht fun c hc => hS c (List.mem_cons_of_mem _ hc)⟩
      intro c hc
      rcases (List.mem_orderedInsert pickLe).mp hc with rfl | hct
      · have hba : pickLe b c := (pickLe_total b c).resolve_right hab
        exact Or.inl ⟨hba, hab⟩
      · exact hb c hct

theorem pickW_insertionSort (l : List CountRow)
    (hl : l.Pairwise fun a b => tripLt (countTripleOf a) (countTripleOf b)) :
    (List.insertionSort pickLe l).Pairwise pickW := by
  induction l with
  | nil => simp [List.insertionSort]
  | cons a t ih =>
    rcases List.pairwise_cons.mp hl with ⟨ha, ht⟩
    rw [List.insertionSort]
    refine pickW_orderedInsert a _ (ih ht) ?_
    intro b hb
    exact ha b ((List.mem_insertionSort pickLe).mp hb)

/-- In a `Pairwise W` list, every element satisfying the predicate either is
the one `find?` returns or is `W`-after it. -/
theorem find_first_rel {α : Type} {W : α → α → Prop} {q : α → Bool} :
    ∀ {l : List α}, l.Pairwise W → ∀ {r : α}, l.find? q = some r →
      ∀ c ∈ l, q c = true → c = r ∨ W r c := by
  intro l
  induction l with
  | nil =>
    intro _ r hf
    simp [List.find?] at hf
  | cons a t ih =>
    intro hp r hf c hc hqc
    rcases List.pairwise_cons.mp hp with ⟨ha, ht⟩
    by_cases hqa : q a = true
    · rw [List.find?_cons_of_pos _ hqa] at hf
      have hra : a = r := by injection hf
      subst hra
      rcases List.mem_cons.mp hc with rfl | hct
      · exact Or.inl rfl
      · exact Or.inr (ha c hct)
    · rw [List.find?_cons_of_neg _ hqa] at hf
      rcases List.mem_cons.mp hc with rfl | hct
      · exact absurd hqc hqa
      · exact ih ht hf c hct hqc

/-! ### Same-key-pair consequences of the orderings -/

theorem pairKey_fields {a b : CountRow} (h : pairKey a = pairKey b) :
    a.company_code = b.company_code ∧ a.sales_item_id = b.sales_item_id := by
  unfold pairKey at h
  exact ⟨congrArg Prod.fst h, congrArg Prod.snd h⟩

theorem pickLe_same_pair {a b : CountRow} (hk : pairKey a = pairKey b)
    (h : pickLe a b) : b.cnt ≤ a.cnt := by
  obtain ⟨e1, e2⟩ := pairKey_fields hk
  unfold pickLe lexLe at h
  simp only at h
  rcases h with h | ⟨_, h | ⟨_, h⟩⟩
  · rw [e1] at h
    exact absurd h (strLtP_irrefl _)
  · rw [e2] at h
    exact absurd h (strLtP_irrefl _)
  · exact h

theorem pickLe_of_same_pair {a b : CountRow} (hk : pairKey a = pairKey b)
    (h : b.cnt ≤ a.cnt) : pickLe a b := by
  obtain ⟨e1, e2⟩ := pairKey_fields hk
  unfold pickLe lexLe
  simp only
  exact Or.inr ⟨e1, Or.inr ⟨e2, h⟩⟩

theorem tripLt_same_pair {a b : CountRow} (hk : pairKey a = pairKey b)
    (h : tripLt (countTripleOf a) (countTripleOf b)) :
    strLtP a.mg_product_name b.mg_product_name := by
  obtain ⟨e1, e2⟩ := pairKey_fields hk
  unfold countTripleOf tripLt lexLe at h
  simp only at h
  rcases h with h | ⟨_, h | ⟨_, h⟩⟩
  · rw [e1] at h
    exact absurd h (strLtP_irrefl _)
  · rw [e2] at h
    exact absurd h (strLtP_irrefl _)
  · exact h

/-! ### Lemmas about the group-and-take-first step -/

theorem groupFirst_find {l : List CountRow} {r : CountRow} (hr : r ∈ groupFirst l) :
    r ∈ l ∧ l.find? (fun c => decide (pairKey c = pairKey r)) = some r := by
  unfold groupFirst at hr
  rcases List.mem_filterMap.mp hr with ⟨k, hk, hf⟩
  have hq := List.find?_some hf
  have hkr : pairKey r = k := of_decide_eq_true hq
  subst hkr
  exact ⟨List.mem_of_find?_eq_some hf, hf⟩

theorem groupFirst_pick {l : List CountRow} (hW : l.Pairwise pickW) {r : CountRow}
    (hr : r ∈ groupFirst l) :
    r ∈ l ∧ ∀ c ∈ l, pairKey c = pairKey r → c = r ∨ pickW r c := by
  obtain ⟨hmem, hf⟩ := groupFirst_find hr
  refine ⟨hmem, ?_⟩
  intro c hc hkc
  exact find_first_rel hW hf c hc (decide_eq_true hkc)

theorem filterMap_find_map (l : List CountRow) :
    ∀ ks : List (String × String), (∀ k ∈ ks, ∃ c ∈ l, pairKey c = k) →
      ((ks.filterMap fun k => l.find? fun c => decide (pairKey c = k)).map pairKey) = ks := by
  intro ks
  induction ks with
  | nil => intro _; rfl
  | cons k ks ih =>
    intro hall
    obtain ⟨c, hc, hck⟩ := hall k (List.mem_cons_self _ _)
    have hfind : (l.find? fun c2 => decide (pairKey c2 = k)).isSome := by
      rw [List.find?_isSome]
      exact ⟨c, hc, decide_eq_true hck⟩
    rcases Option.isSome_iff_exists.mp hfind with ⟨r, hr⟩
    rw [List.filterMap_cons, hr, List.map_cons]
    have hq := List.find?_some hr
    congr 1
    · exact of_decide_eq_true hq
    · exact ih fun k2 hk2 => hall k2 (List.mem_cons_of_mem _ hk2)

theorem groupFirst_map_pairKey (l : List CountRow) :
    (groupFirst l).map pairKey = List.insertionSort pairLe (l.map pairKey).dedup := by
  unfold groupFirst
  apply filterMap_find_map
  intro k hk
  have hk2 : k ∈ l.map pairKey := List.mem_dedup.mp ((List.mem_insertionSort pairLe).mp hk)
  rcases List.mem_map.mp hk2 with ⟨c, hc, hck⟩
  exact ⟨c, hc, hck⟩

/-! ### Characterisation of the picked rows -/

theorem counts_pairwise (p : List PlatoRow) (m : List MagRow) :
    (counts p m).Pairwise fun a b => tripLt (countTripleOf a) (countTripleOf b) :=
  countsOf_pairwise (triples p m)

theorem picked_char {p : List PlatoRow} {m : List MagRow} {c : CountRow}
    (hc : c ∈ groupFirst (List.insertionSort pickLe (counts p m))) :
    c ∈ counts p m ∧
      ∀ c2 ∈ counts p m, pairKey c2 = pairKey c →
        c2.cnt ≤ c.cnt ∧ (c2.cnt = c.cnt → strLeP c.mg_product_name c2.mg_product_name) := by
  have hW : (List.insertionSort pickLe (counts p m)).Pairwise pickW :=
    pickW_insertionSort _ (counts_pairwise p m)
  obtain ⟨hmem, hfirst⟩ := groupFirst_pick hW hc
  refine ⟨(List.mem_insertionSort pickLe).mp hmem, ?_⟩
  intro c2 hc2 hk
  have hc2s : c2 ∈ List.insertionSort pickLe (counts p m) :=
    (List.mem_insertionSort pickLe).mpr hc2
  rcases hfirst c2 hc2s hk with rfl | hw
  · exact ⟨le_refl _, fun _ => Or.inr rfl⟩
  · have hkc : pairKey c = pairKey c2 := hk.symm
    rcases hw with ⟨h1, h2⟩ | ⟨h1, h2, h3⟩
    · refine ⟨pickLe_same_pair hkc h1, ?_⟩
      intro heq
      exact absurd (pickLe_of_same_pair hk heq.ge) h2
    · exact ⟨pickLe_same_pair hkc h1, fun _ => Or.inl (tripLt_same_pair hkc h3)⟩

theorem mem_resolve_mapping {p : List PlatoRow} {m : List MagRow} {r : OutRow}
    (hr : r ∈ resolve_mapping p m) :
    ∃ c ∈ groupFirst (List.insertionSort pickLe (counts p m)), toOut c = r := by
  unfold resolve_mapping picked at hr
  have hr2 := (List.mem_insertionSort outLe).mp hr
  rcases List.mem_map.mp hr2 with ⟨c, hc, hcr⟩
  exact ⟨c, hc, hcr⟩

theorem counts_cnt_labelCount {p : List PlatoRow} {m : List MagRow} {c : CountRow}
    (hc : c ∈ counts p m) :
    c.cnt = labelCount p m c.company_code c.sales_item_id c.mg_product_name :=
  (mem_countsOf hc).2

theorem counts_row_of_labelCount_pos {p : List PlatoRow} {m : List MagRow}
    {cc it lab : String} (h : 0 < labelCount p m cc it lab) :
    (⟨cc, it, lab, labelCount p m cc it lab⟩ : CountRow) ∈ counts p m := by
  have ht : (cc, it, lab) ∈ triples p m := by
    rcases List.countP_pos_iff.mp h with ⟨t, htm, hdec⟩
    have he := of_decide_eq_true hdec
    rw [he] at htm
    exact htm
  exact countsOf_mem_of_mem ht

theorem keyTriple_none_of_null {j : JoinedRow}
    (h : j.company_code = none ∨ j.sales_item_id = none) : keyTriple j = none := by
  obtain ⟨jc, ji, jl⟩ := j
  rcases h with h | h
  · have h2 : jc = none := h
    subst h2
    rcases ji with _ | i <;> rcases jl with _ | lab <;> rfl
  · have h2 : ji = none := h
    subst h2
    rcases jc with _ | c <;> rcases jl with _ | lab <;> rfl

/-! ### Claim theorems -/

/-- C1 (confirmed): for every pair of input record sets and every
(company_code, item_id) row of the resolver's output, the occurrence count
(over surviving joined occurrences) of the selected product_label is at
least the count of every other label observed for that pair. -/
theorem majority_correctness (p : List PlatoRow) (m : List MagRow) (r : OutRow)
    (hr : r ∈ resolve_mapping p m) (lab : String) :
    labelCount p m r.company_code r.sales_item_id lab ≤
      labelCount p m r.company_code r.sales_item_id r.mg_product_name := by
  rcases mem_resolve_mapping hr with ⟨c, hc, rfl⟩
  obtain ⟨hcm, hmax⟩ := picked_char hc
  show labelCount p m c.company_code c.sales_item_id lab ≤
    labelCount p m c.company_code c.sales_item_id c.mg_product_name
  rcases Nat.eq_zero_or_pos (labelCount p m c.company_code c.sales_item_id lab) with hz | hpos
  · rw [hz]
    exact Nat.zero_le _
  · have hc2 := counts_row_of_labelCount_pos hpos
    have h := (hmax _ hc2 rfl).1
    rw [counts_cnt_labelCount hcm] at h
    exact h

def scen1_plato : List PlatoRow :=
  [⟨some ("C01"), some ("O1"), some 1, some ("X")⟩,
    ⟨some ("C01"), some ("O2"), some 1, some ("X")⟩,
    ⟨some ("C01"), some ("O3"), some 1, some ("X")⟩]

def scen1_mag : List MagRow :=
  [⟨some ("C01"), some ("O1"), some 1, some ("Blinds")⟩,
    ⟨some ("C01"), some ("O2"), some 1, some ("Blinds")⟩,
    ⟨some ("C01"), some ("O3"), some 1, some ("Shades")⟩]

/-- Witness for C1 at concrete scenario 1 of the spec: "Blinds" (count 2)
beats "Shades" (count 1). -/
theorem majority_correctness_witness :
    (⟨"C01", "X", "Blinds"⟩ : OutRow) ∈ resolve_mapping scen1_plato scen1_mag ∧
      labelCount scen1_plato scen1_mag ("C01") ("X") ("Shades") ≤
        labelCount scen1_plato scen1_mag ("C01") ("X") ("Blinds") :=
  ⟨by decide,
    majority_correctness scen1_plato scen1_mag ⟨"C01", "X", "Blinds"⟩ (by decide) ("Shades")⟩

def tie_plato : List PlatoRow :=
  [⟨some ("C1"), some ("O1"), some 1, some ("X")⟩,
    ⟨some ("C1"), some ("O2"), some 1, some ("X")⟩]

def tie_mag : List MagRow :=
  [⟨some ("C1"), some ("O1"), some 1, some ("Z")⟩,
    ⟨some ("C1"), some ("O2"), some 1, some ("A")⟩]

/-- C2 counterexample: on this input the labels "Z" and "A" tie 1-to-1 for
the pair (C1, X), and the first-encountered label in input order is "Z"
(the surviving joined occurrences in order carry labels ["Z", "A"]), yet
the resolver selects "A": the grouping step sorts the label column, so the
tie is broken by lexicographic label order, not by input order. -/
theorem tie_break_not_input_order :
    (triples tie_plato tie_mag).map (fun t => t.2.2) = [("Z" : String), ("A" : String)] ∧
      labelCount tie_plato tie_mag ("C1") ("X") ("Z") = 1 ∧
      labelCount tie_plato tie_mag ("C1") ("X") ("A") = 1 ∧
      resolve_mapping tie_plato tie_mag = [⟨"C1", "X", "A"⟩] :=
  ⟨by decide, by decide, by decide, by decide⟩

/-- C2 amended (corrected): when two or more labels tie for the highest
count for a (company_code, item_id) pair, the resolver selects the
lexicographically smallest label among those sharing the maximum count (the
first label in the sorted order of the grouping step), not the
first-encountered label in input order; and repeated runs on identical
input select the same label. -/
theorem tie_break_least_label (p : List PlatoRow) (m : List MagRow) (r : OutRow)
    (hr : r ∈ resolve_mapping p m) :
    (∀ lab : String,
        labelCount p m r.company_code r.sales_item_id lab =
          labelCount p m r.company_code r.sales_item_id r.mg_product_name →
        strLeP r.mg_product_name lab) ∧
      resolve_mapping p m = resolve_mapping p m := by
  refine ⟨?_, rfl⟩
  rcases mem_resolve_mapping hr with ⟨c, hc, rfl⟩
  obtain ⟨hcm, hmax⟩ := picked_char hc
  intro lab heq
  show strLeP c.mg_product_name lab
  have heq2 : labelCount p m c.company_code c.sales_item_id lab =
      labelCount p m c.company_code c.sales_item_id c.mg_product_name := heq
  have hself : 0 < labelCount p m c.company_code c.sales_item_id c.mg_product_name := by
    refine List.countP_pos_iff.mpr ⟨countTripleOf c, (mem_countsOf hcm).1, ?_⟩
    exact decide_eq_true rfl
  have hpos : 0 < labelCount p m c.company_code c.sales_item_id lab := by
    rw [heq2]
    exact hself
  have hc2 := counts_row_of_labelCount_pos hpos
  have h := hmax _ hc2 rfl
  have hcnt : (⟨c.company_code, c.sales_item_id, lab,
      labelCount p m c.company_code c.sales_item_id lab⟩ : CountRow).cnt = c.cnt := by
    show labelCount p m c.company_code c.sales_item_id lab = c.cnt
    rw [heq2, ← counts_cnt_labelCount hcm]
  exact h.2 hcnt

/-- Witness for the amended C2 at the tie counterexample input: the picked
label "A" is lexicographically at most the tied label "Z". -/
theorem tie_break_least_label_witness :
    (⟨"C1", "X", "A"⟩ : OutRow) ∈ resolve_mapping tie_plato tie_mag ∧
      strLeP ("A") ("Z") :=
  ⟨by decide,
    (tie_break_least_label tie_plato tie_mag ⟨"C1", "X", "A"⟩ (by decide)).1 ("Z") (by decide)⟩

/-- C4 (confirmed): the resolver is a pure function of the two input record
lists, so two invocations on equal inputs (same records in the same order)
produce identical output, same rows in the same order. -/
theorem resolver_deterministic (p p2 : List PlatoRow) (m m2 : List MagRow)
    (hp : p = p2) (hm : m = m2) : resolve_mapping p m = resolve_mapping p2 m2 := by
  subst hp
  subst hm
  rfl

def det_plato : List PlatoRow := [⟨some ("C9"), some ("O7"), some 2, some ("Y")⟩]

def det_mag : List MagRow := [⟨some ("C9"), some ("O7"), some 2, some ("Lbl")⟩]

/-- Witness for C4 at a concrete input. -/
theorem resolver_deterministic_witness :
    resolve_mapping det_plato det_mag = resolve_mapping det_plato det_mag :=
  resolver_deterministic det_plato det_plato det_mag det_mag rfl rfl

/-- C5 (confirmed): the resolver output is sorted ascending by the pair
(company_code, sales_item_id) — pairwise, every earlier row is `outLe`-below
every later row. -/
theorem output_ordering (p : List PlatoRow) (m : List MagRow) :
    (resolve_mapping p m).Pairwise outLe :=
  List.sorted_insertionSort outLe (picked p m)

/-- C6 (confirmed): an empty order-line input, an empty labeled input, or
fully disjoint composite key spaces all yield the empty output; the
resolver is a total function, so no error is possible. -/
theorem no_join_empty_output (p : List PlatoRow) (m : List MagRow)
    (h : p = [] ∨ m = [] ∨ ∀ pr ∈ p, ∀ mr ∈ m, keyMatch pr mr = false) :
    resolve_mapping p m = [] := by
  rcases h with rfl | rfl | h
  · rfl
  · apply resolve_mapping_eq_nil_of_triples
    unfold triples
    rw [survivors_eq_nil fun pr _ mr hmr => absurd hmr (List.not_mem_nil mr)]
    rfl
  · apply resolve_mapping_eq_nil_of_triples
    unfold triples
    rw [survivors_eq_nil h]
    rfl

def disjoint_plato : List PlatoRow := [⟨some ("C1"), some ("O1"), some 1, some ("X")⟩]

def disjoint_mag : List MagRow := [⟨some ("C2"), some ("O9"), some 2, some ("L")⟩]

/-- Witness for C6 at a concrete input with disjoint key spaces. -/
theorem no_join_empty_output_witness :
    resolve_mapping disjoint_plato disjoint_mag = [] :=
  no_join_empty_output disjoint_plato disjoint_mag (Or.inr (Or.inr (by decide)))

def null_plato : List PlatoRow := [⟨some ("C1"), none, some 1, some ("X")⟩]

def null_mag : List MagRow := [⟨some ("C1"), none, some 1, some ("L")⟩]

/-- C7 counterexample: an order-line record whose order_number is null is
NOT excluded from the join — pandas `merge` matches a null key cell against
a null key cell, so this record joins the labeled record with the same null
order_number and produces an output row (and a count). -/
theorem null_key_not_excluded :
    resolve_mapping null_plato null_mag = [⟨"C1", "X", "L"⟩] := by decide

/-- C7 amended (corrected): an order-line record with a null company_code or
a null item_id contributes no count and no output row (the grouping step
drops null-keyed rows), and the computation completes without failing; but a
record with a null order_number or line_number is only unmatchable against
labeled records that do not carry the identical null-keyed composite key,
since the pandas join matches null keys to null keys. -/
theorem null_cc_or_item_excluded (r : PlatoRow) (p : List PlatoRow) (m : List MagRow)
    (h : r.company_code = none ∨ r.sales_item_id = none) :
    resolve_mapping (r :: p) m = resolve_mapping p m := by
  apply resolve_mapping_congr_triples
  rw [triples_cons]
  have hnil : (dropna_label (lookup_rows r m)).filterMap keyTriple = [] := by
    rw [List.filterMap_eq_nil_iff]
    intro j hj
    have hj2 : j ∈ lookup_rows r m := List.mem_of_mem_filter hj
    obtain ⟨hcc, hit⟩ := mem_lookup_rows hj2
    rcases h with h | h
    · exact keyTriple_none_of_null (Or.inl (hcc.trans h))
    · exact keyTriple_none_of_null (Or.inr (hit.trans h))
  rw [hnil, List.nil_append]

/-- Witness for the amended C7: a record with a null company_code changes
nothing in the output. -/
theorem null_cc_or_item_excluded_witness :
    ((⟨none, some ("O1"), some 1, some ("X")⟩ : PlatoRow).company_code = none) ∧
      resolve_mapping [⟨none, some ("O1"), some 1, some ("X")⟩] [] =
        resolve_mapping [] [] :=
  ⟨rfl, null_cc_or_item_excluded ⟨none, some ("O1"), some 1, some ("X")⟩ [] [] (Or.inl rfl)⟩

/-! ### Key-pair bookkeeping for the completeness claim -/

/-- The (company_code, sales_item_id) key of an output row. -/
def outKey (r : OutRow) : String × String :=
  (r.company_code, r.sales_item_id)

theorem mem_triples {p : List PlatoRow} {m : List MagRow} {t : String × String × String}
    (h : t ∈ triples p m) :
    ∃ j ∈ merge_left p m, j.mg_product_name.isSome = true ∧ keyTriple j = some t := by
  unfold triples survivors dropna_label at h
  rcases List.mem_filterMap.mp h with ⟨j, hj, hkt⟩
  rcases List.mem_filter.mp hj with ⟨hjm, hjs⟩
  exact ⟨j, hjm, hjs, hkt⟩

theorem mem_pairs_counts_iff {p : List PlatoRow} {m : List MagRow} {k : String × String} :
    k ∈ (counts p m).map pairKey ↔ k ∈ (triples p m).map pairOfTriple := by
  constructor
  · intro h
    rcases List.mem_map.mp h with ⟨c, hc, hck⟩
    have ht : countTripleOf c ∈ triples p m := (mem_countsOf hc).1
    have h2 : pairOfTriple (countTripleOf c) ∈ (triples p m).map pairOfTriple :=
      List.mem_map_of_mem _ ht
    have he : pairOfTriple (countTripleOf c) = k := hck
    rw [he] at h2
    exact h2
  · intro h
    rcases List.mem_map.mp h with ⟨t, ht, htk⟩
    have hc := countsOf_mem_of_mem ht
    have h2 : pairKey (⟨t.1, t.2.1, t.2.2,
        (triples p m).countP fun u => decide (u = t)⟩ : CountRow) ∈ (counts p m).map pairKey :=
      List.mem_map_of_mem _ hc
    have he : pairKey (⟨t.1, t.2.1, t.2.2,
        (triples p m).countP fun u => decide (u = t)⟩ : CountRow) = k := htk
    rw [he] at h2
    exact h2

theorem picked_map_outKey (p : List PlatoRow) (m : List MagRow) :
    (picked p m).map outKey =
      (groupFirst (List.insertionSort pickLe (counts p m))).map pairKey := by
  unfold picked
  rw [List.map_map]
  rfl

theorem groupFirst_pairKey_nodup (l : List CountRow) :
    ((groupFirst l).map pairKey).Nodup := by
  rw [groupFirst_map_pairKey]
  exact (List.perm_insertionSort pairLe _).nodup_iff.mpr (List.nodup_dedup _)

theorem mem_groupFirst_pairs_iff {l : List CountRow} {k : String × String} :
    k ∈ (groupFirst l).map pairKey ↔ k ∈ l.map pairKey := by
  rw [groupFirst_map_pairKey]
  constructor
  · intro h
    exact List.mem_dedup.mp ((List.mem_insertionSort pairLe).mp h)
  · intro h
    exact (List.mem_insertionSort pairLe).mpr (List.mem_dedup.mpr h)

theorem resolve_map_outKey_perm (p : List PlatoRow) (m : List MagRow) :
    ((resolve_mapping p m).map outKey).Perm
      ((groupFirst (List.insertionSort pickLe (counts p m))).map pairKey) := by
  have h1 : (resolve_mapping p m).Perm (picked p m) :=
    List.perm_insertionSort outLe (picked p m)
  have h2 := h1.map outKey
  rw [picked_map_outKey] at h2
  exact h2

theorem countP_eq_one_of_nodup_map {l : List OutRow} (hnd : (l.map outKey).Nodup)
    {k : String × String} (hk : k ∈ l.map outKey) :
    l.countP (fun r => decide (outKey r = k)) = 1 := by
  induction l with
  | nil => simp at hk
  | cons a t ih =>
    rw [List.map_cons] at hnd hk
    rcases List.nodup_cons.mp hnd with ⟨hna, hnt⟩
    rw [List.countP_cons]
    split_ifs with hpa
    · have hak : outKey a = k := of_decide_eq_true hpa
      have h0 : t.countP (fun r => decide (outKey r = k)) = 0 := by
        rw [List.countP_eq_zero]
        intro r hrt hdec2
        have hrk : outKey r = k := of_decide_eq_true hdec2
        have hmem : outKey r ∈ t.map outKey := List.mem_map_of_mem outKey hrt
        rw [hrk, ← hak] at hmem
        exact hna hmem
      rw [h0]
    · have hak : outKey a ≠ k := fun he => hpa (decide_eq_true he)
      rcases List.mem_cons.mp hk with hka | hkt
      · exact absurd hka.symm hak
      · rw [Nat.add_zero]
        exact ih hnt hkt

theorem countP_outKey_congr (l : List OutRow) (cc it : String) :
    l.countP (fun r => decide (r.company_code = cc ∧ r.sales_item_id = it)) =
      l.countP (fun r => decide (outKey r = (cc, it))) := by
  apply List.countP_congr
  intro r _
  simp only [decide_eq_true_eq]
  unfold outKey
  constructor
  · rintro ⟨h1, h2⟩
    rw [h1, h2]
  · intro h
    exact ⟨congrArg Prod.fst h, congrArg Prod.snd h⟩

/-- C3 (confirmed): every (company_code, item_id) pair in the output comes
from at least one surviving joined occurrence and from at least one
order-line record carrying that pair; conversely, every pair with at least
one surviving joined occurrence appears in the output exactly once. -/
theorem keys_completeness (p : List PlatoRow) (m : List MagRow) (cc it : String) :
    ((∃ r ∈ resolve_mapping p m, r.company_code = cc ∧ r.sales_item_id = it) →
        (cc, it) ∈ (triples p m).map pairOfTriple ∧
          ∃ pr ∈ p, pr.company_code = some cc ∧ pr.sales_item_id = some it) ∧
      ((cc, it) ∈ (triples p m).map pairOfTriple →
        (resolve_mapping p m).countP
          (fun r => decide (r.company_code = cc ∧ r.sales_item_id = it)) = 1) := by
  constructor
  · rintro ⟨r, hr, hcc, hit⟩
    rcases mem_resolve_mapping hr with ⟨c, hc, rfl⟩
    obtain ⟨hcm, _⟩ := picked_char hc
    have ht : countTripleOf c ∈ triples p m := (mem_countsOf hcm).1
    have hccc : c.company_code = cc := hcc
    have hitc : c.sales_item_id = it := hit
    constructor
    · have h2 : pairOfTriple (countTripleOf c) ∈ (triples p m).map pairOfTriple :=
        List.mem_map_of_mem _ ht
      have he : pairOfTriple (countTripleOf c) = (c.company_code, c.sales_item_id) := rfl
      rw [he, hccc, hitc] at h2
      exact h2
    · rcases mem_triples ht with ⟨j, hjm, _, hkt⟩
      obtain ⟨hjc, hji, _⟩ := keyTriple_eq_some hkt
      rcases mem_merge_left hjm with ⟨pr, hpr, hpc, hpi⟩
      refine ⟨pr, hpr, ?_, ?_⟩
      · rw [← hpc, hjc]
        show some c.company_code = some cc
        rw [hccc]
      · rw [← hpi, hji]
        show some c.sales_item_id = some it
        rw [hitc]
  · intro hk
    have hk2 : (cc, it) ∈ (counts p m).map pairKey := mem_pairs_counts_iff.mpr hk
    have hk3 : (cc, it) ∈ (List.insertionSort pickLe (counts p m)).map pairKey := by
      rcases List.mem_map.mp hk2 with ⟨c, hc, hck⟩
      have h2 : pairKey c ∈ (List.insertionSort pickLe (counts p m)).map pairKey :=
        List.mem_map_of_mem _ ((List.mem_insertionSort pickLe).mpr hc)
      rw [hck] at h2
      exact h2
    have hk4 := mem_groupFirst_pairs_iff.mpr hk3
    have hperm := resolve_map_outKey_perm p m
    have hnd : ((resolve_mapping p m).map outKey).Nodup :=
      hperm.nodup_iff.mpr (groupFirst_pairKey_nodup _)
    have hkk : (cc, it) ∈ (resolve_mapping p m).map outKey := hperm.mem_iff.mpr hk4
    rw [countP_outKey_congr]
    exact countP_eq_one_of_nodup_map hnd hkk

def comp_plato : List PlatoRow :=
  [⟨some ("C01"), some ("O1"), some 1, some ("X")⟩,
    ⟨some ("C01"), some ("O2"), some 1, some ("X")⟩]

def comp_mag : List MagRow :=
  [⟨some ("C01"), some ("O1"), some 1, some ("Blinds")⟩]

/-- Witness for C3 at a concrete input: the pair (C01, X) has a surviving
join, so it appears exactly once in the output. -/
theorem keys_completeness_witness :
    (("C01", "X") ∈ (triples comp_plato comp_mag).map pairOfTriple) ∧
      (resolve_mapping comp_plato comp_mag).countP
        (fun r => decide (r.company_code = ("C01" : String) ∧
          r.sales_item_id = ("X" : String))) = 1 :=
  ⟨by decide, (keys_completeness comp_plato comp_mag ("C01") ("X")).2 (by decide)⟩

/-- C8 (confirmed): in the live pipeline, a company-code lookup yielding
zero codes makes `fetch_company_codes` raise before `run_mapping_query`
runs (the outcome does not depend on `run_query` at all) and before any
file is written (`main_written` is `none`). -/
theorem empty_codes_aborts (run_query : List String → List OutRow) :
    main_live true [] run_query =
        Except.error ("No CompanyCodes resolved from supported entities.") ∧
      main_written true [] run_query = none :=
  ⟨rfl, rfl⟩

/-- C9 (confirmed): in mock mode `get_credentials` returns `None` without
raising, whether or not `pydata_google_auth` is importable; the
missing-dependency error is raised only in non-mock mode. -/
theorem mock_credentials_no_raise (pydata_available : Bool) :
    get_credentials true pydata_available = Except.ok none ∧
      get_credentials false false =
        Except.error ("pydata_google_auth not installed; run: pip install pydata-google-auth") :=
  ⟨rfl, rfl⟩

/-- C10 (confirmed): whenever `fetch_company_codes` returns instead of
raising, its result is non-empty and strictly ascending (hence sorted and
duplicate-free). -/
theorem company_codes_sorted_nodup (lookup : List String) (codes : List String)
    (h : fetch_company_codes lookup = Except.ok codes) :
    codes ≠ [] ∧ codes.Pairwise strLtP := by
  unfold fetch_company_codes at h
  split_ifs at h with hc
  case _ =>
    have h2 : List.insertionSort strLeP lookup.dedup = codes := by
      injection h
    subst h2
    refine ⟨hc, ?_⟩
    have hsorted : (List.insertionSort strLeP lookup.dedup).Pairwise strLeP :=
      List.sorted_insertionSort strLeP lookup.dedup
    have hnodup : (List.insertionSort strLeP lookup.dedup).Nodup :=
      (List.perm_insertionSort strLeP lookup.dedup).nodup_iff.mpr (List.nodup_dedup lookup)
    exact (hsorted.and hnodup).imp fun hab => strLtP_of_leP_ne hab.1 hab.2

/-- Witness for C10 at a concrete lookup result with a duplicate and
unsorted order. -/
theorem company_codes_sorted_nodup_witness :
    fetch_company_codes [("B"), ("A"), ("B")] = Except.ok [("A"), ("B")] ∧
      (([("A"), ("B")] : List String) ≠ [] ∧
        ([("A"), ("B")] : List String).Pairwise strLtP) :=
  ⟨rfl, company_codes_sorted_nodup [("B"), ("A"), ("B")] [("A"), ("B")] rfl⟩

end DevAnon
